import Mathlib

/-!
Verification development for the libde265 HEVC decoder module
(modules/codec/libde265dec.c).

The module's `Decode` entry point is embedded as a pure Lean function.
External collaborators (the opaque libde265 decoding engine, the host
clock `mdate`, `decoder_GetDisplayDate`, the picture allocator
`decoder_NewPicture`) are modelled as deterministic oracles supplied in
an environment record; every call the orchestrator makes into the engine
is recorded in an ordered trace so that claims about "no push", "exactly
N pushes", "engine reset" can be stated as facts about the trace.
The two driving loops around `de265_decode` are given explicit fuel,
with fuel exhaustion reported as a distinguished outcome (the C loops
have no intrinsic bound: the engine decides when to stall).
-/

namespace Libde265

/-- Default size of length headers for packetized streams (line 38). -/
def DEFAULT_LENGTH_SIZE : Nat := 4

/-- Maximum number of worker threads (line 41). -/
def MAX_THREAD_COUNT : Nat := 32

/-- Drop all frames if late frames were available for more than 5 seconds (line 44). -/
def LATE_FRAMES_DROP_ALWAYS_AGE : Int := 5

/-- Tell decoder to skip decoding if more than 4 late frames (line 47). -/
def LATE_FRAMES_DROP_DECODER : Int := 4

/-- Do not pass data to decoder if more than 12 late frames (line 50). -/
def LATE_FRAMES_DROP_HARD : Int := 12

/-- VLC clock frequency: mtime_t counts microseconds (vlc_common.h). -/
def CLOCK_FREQ : Int := 1000000

/-- Value of the `de265_chroma_420` enumerator of libde265's chroma enum. -/
def de265_chroma_420 : Nat := 1

/-- vlc_common.h success code. -/
def VLC_SUCCESS : Int := 0

/-- vlc_common.h generic failure code. -/
def VLC_EGENERIC : Int := -666

/-- vlc_common.h out-of-memory failure code. -/
def VLC_ENOMEM : Int := -2

/-- VLC_FOURCC of the HEVC codec: bytes h,e,v,c packed little-endian. -/
def VLC_CODEC_HEVC : Nat := 0x63766568

/-- decoder_sys_t (lines 74-83): the per-session state of the module.
The `de265_decoder_context *ctx` handle is not part of this record: the
engine is modelled by the oracle in `Env`, and interactions with it by
the call trace. -/
structure Sys where
  late_frames_start : Int
  length_size : Nat
  late_frames : Int
  check_extra : Bool
  packetized : Bool
deriving DecidableEq, Repr

/-- An input block (block_t): byte buffer, the three flags the code
inspects, and the presentation timestamp `i_pts`. -/
structure Block where
  discontinuity : Bool
  corrupted : Bool
  preroll : Bool
  buffer : List Nat
  pts : Int
deriving DecidableEq, Repr

/-- A decoded image handle as seen through the de265 accessors used by
the code: chroma format, PTS, width/height of plane 0, and per-plane
stride and pixel bytes (offset-indexed). -/
structure Image where
  chroma : Nat
  pts : Int
  width : Int
  height : Int
  planeStride : Nat → Nat
  planeData : Nat → Nat → Nat

/-- One plane of a picture returned by the host allocator
`decoder_NewPicture`: pitch (`i_pitch`), visible line count
(`i_visible_lines`) and the initial pixel bytes. -/
structure PlaneT where
  pitch : Nat
  visibleLines : Nat
  pixels : Nat → Nat

/-- A picture template from `decoder_NewPicture` (plane count plus
per-plane geometry and storage). -/
structure PicT where
  nPlanes : Nat
  plane : Nat → PlaneT

/-- The picture the module returns: filled planes, `b_progressive`,
and `date`. -/
structure PicOut where
  planes : Nat → Nat → Nat
  nPlanes : Nat
  progressive : Bool
  date : Int

/-- Classification of a `de265_error` as the Decode switch statements
consume it: `DE265_OK`, the two not-really-an-error codes, any other
code accepted by `de265_isOK`, and any code rejected by it. -/
inductive DecodeErr where
  | ok
  | bufferFull
  | waitingForInput
  | otherOK
  | otherFail
deriving DecidableEq, Repr

/-- One call from the orchestrator into the decoding engine. -/
inductive EngineCall where
  | reset
  | pushData (bytes : List Nat) (pts : Int)
  | pushNAL (bytes : List Nat) (pts : Int)
  | pushEndOfNAL
  | flushData
  | decodeStep
  | nextPicture
deriving DecidableEq, Repr

/-- Oracle for the opaque decoding engine: the result of the n-th call
of each kind.  `decodeRes` yields the error classification together
with the `can_decode_more` out-parameter; `picture` is the result of
the n-th `de265_get_next_picture`. -/
structure Engine where
  pushDataOk : Nat → Bool
  pushNALok : Nat → Bool
  flushOk : Nat → Bool
  decodeRes : Nat → DecodeErr × Bool
  picture : Nat → Option Image

/-- The `fmt_out.video` geometry fields mutated by Decode (lines 283-294). -/
structure FmtOut where
  i_width : Int
  i_height : Int
  i_visible_width : Int
  i_visible_height : Int
deriving DecidableEq, Repr

/-- Read-only call environment: engine oracle, the `decoder_t` fields
Decode reads (`b_pace_control`, `fmt_in.p_extra`), the host services
(`decoder_GetDisplayDate`, `mdate` as a stream of clock readings,
`decoder_NewPicture`), the compile-time libde265 version gate for
`de265_push_end_of_NAL`, loop fuel, and the initial output geometry. -/
structure Env where
  eng : Engine
  b_pace_control : Bool
  extra : List Nat
  getDisplayDate : Int → Int
  clock : Nat → Int
  newPic : Option PicT
  v7 : Bool
  fuel : Nat
  fmtOut0 : FmtOut

/-- Mutable state threaded through one Decode call: the session record,
the index of the next `mdate` reading, per-operation engine call
counters, the ordered engine call trace, and the output geometry. -/
structure St where
  sys : Sys
  tick : Nat
  nPushNAL : Nat
  nPushData : Nat
  nFlush : Nat
  nDecode : Nat
  nPic : Nat
  trace : List EngineCall
  fmtOut : FmtOut
deriving DecidableEq, Repr

/-- Fresh state at the start of one Decode call. -/
def St.init (sys : Sys) (fo : FmtOut) : St :=
  { sys := sys, tick := 0, nPushNAL := 0, nPushData := 0, nFlush := 0,
    nDecode := 0, nPic := 0, trace := [], fmtOut := fo }

/-- Overwrite `sys->late_frames`. -/
def setLate (st : St) (n : Int) : St :=
  { st with sys := { st.sys with late_frames := n } }

/-- One `mdate()` reading: the next value of the clock stream. -/
def mdateSt (env : Env) (st : St) : Int × St :=
  (env.clock st.tick, { st with tick := st.tick + 1 })

/-- `de265_reset` (line 105). -/
def callReset (st : St) : St :=
  { st with trace := st.trace ++ [EngineCall.reset] }

/-- `de265_push_data` (lines 124, 214). -/
def callPushData (env : Env) (st : St) (bytes : List Nat) (pts : Int) : Bool × St :=
  (env.eng.pushDataOk st.nPushData,
   { st with nPushData := st.nPushData + 1,
             trace := st.trace ++ [EngineCall.pushData bytes pts] })

/-- `de265_push_NAL` (line 204). -/
def callPushNAL (env : Env) (st : St) (bytes : List Nat) (pts : Int) : Bool × St :=
  (env.eng.pushNALok st.nPushNAL,
   { st with nPushNAL := st.nPushNAL + 1,
             trace := st.trace ++ [EngineCall.pushNAL bytes pts] })

/-- `de265_flush_data` (line 221). -/
def callFlush (env : Env) (st : St) : Bool × St :=
  (env.eng.flushOk st.nFlush,
   { st with nFlush := st.nFlush + 1,
             trace := st.trace ++ [EngineCall.flushData] })

/-- `de265_push_end_of_NAL` (line 131, version-gated). -/
def callPushEndOfNAL (st : St) : St :=
  { st with trace := st.trace ++ [EngineCall.pushEndOfNAL] }

/-- `de265_decode` (lines 134, 237): error classification plus the
`can_decode_more` out-parameter. -/
def callDecode (env : Env) (st : St) : DecodeErr × Bool × St :=
  ((env.eng.decodeRes st.nDecode).1, (env.eng.decodeRes st.nDecode).2,
   { st with nDecode := st.nDecode + 1,
             trace := st.trace ++ [EngineCall.decodeStep] })

/-- `de265_get_next_picture` (line 255). -/
def callNextPicture (env : Env) (st : St) : Option Image × St :=
  (env.eng.picture st.nPic,
   { st with nPic := st.nPic + 1,
             trace := st.trace ++ [EngineCall.nextPicture] })

/-- Big-endian accumulation of the length header, lines 192-195:
`length = (length << 8) | p_buffer[i]` on a `uint32_t`. -/
def readBE (bs : List Nat) : Nat :=
  bs.foldl (fun len b => ((len <<< 8) % 2 ^ 32) ||| b) 0

/-- Big-endian byte encoding of `n` on `k` bytes (test-input
constructor for packetized buffers; not part of the C code). -/
def beBytes : Nat → Nat → List Nat
  | 0, _ => []
  | k + 1, n => beBytes k (n / 256) ++ [n % 256]

/-- One length-prefixed NAL unit: `ls`-byte big-endian length header
followed by the payload. -/
def encodeNAL (ls : Nat) (nal : List Nat) : List Nat :=
  beBytes ls nal.length ++ nal

/-- Concatenation of length-prefixed NAL units. -/
def encodeNALs (ls : Nat) (nals : List (List Nat)) : List Nat :=
  nals.foldr (fun nal acc => encodeNAL ls nal ++ acc) []

/-- Extradata classification, lines 113-123: the values assigned to
`sys->packetized` and `sys->length_size` as a function of the extradata
bytes and their previous (caller-declared) values. -/
def classifyExtra (extra : List Nat) (pk : Bool) (ls : Nat) : Bool × Nat :=
  if extra.length > 0 then
    if extra.length > 3 ∧
        (extra.getD 0 0 ≠ 0 ∨ extra.getD 1 0 ≠ 0 ∨ extra.getD 2 0 > 1) then
      (true, if extra.length > 21 then (extra.getD 21 0 &&& 3) + 1 else ls)
    else (false, ls)
  else (pk, ls)

/-- Result of a phase of Decode that can hit `goto error` or run a
fuel-bounded engine loop. -/
inductive PhaseRes where
  | ok (st : St)
  | err (st : St)
  | fuelOut (st : St)
deriving Repr

/-- State carried by a `PhaseRes`. -/
def PhaseRes.st : PhaseRes → St
  | .ok st => st
  | .err st => st
  | .fuelOut st => st

/-- The extradata priming loop, lines 133-151: call `de265_decode`
until it stalls (`IMAGE_BUFFER_FULL` / `WAITING_FOR_INPUT_DATA`, not
really errors), reports no more data, or fails. -/
def primeLoop (env : Env) : Nat → St → PhaseRes
  | 0, st => .fuelOut st
  | f + 1, st =>
    match callDecode env st with
    | (DecodeErr.otherFail, _, st1) => .err st1
    | (DecodeErr.ok, can, st1) => if can then primeLoop env f st1 else .ok st1
    | (DecodeErr.otherOK, can, st1) => if can then primeLoop env f st1 else .ok st1
    | (DecodeErr.bufferFull, _, st1) => .ok st1
    | (DecodeErr.waitingForInput, _, st1) => .ok st1

/-- Tail of the extradata branch, lines 130-151: the version-gated
`de265_push_end_of_NAL` followed by the priming decode loop. -/
def primeTail (env : Env) (st : St) : PhaseRes :=
  let st1 := if env.v7 then callPushEndOfNAL st else st
  primeLoop env env.fuel st1

/-- The `sys->check_extra` block, lines 110-153: on the first call only,
clear the flag, classify the extradata, on the raw/Annex-B side push the
extradata into the engine at timestamp 0, then drive the priming loop. -/
def extraPhase (env : Env) (st : St) : PhaseRes :=
  if st.sys.check_extra then
    let sys1 := { st.sys with check_extra := false }
    if env.extra.length > 0 then
      let c := classifyExtra env.extra sys1.packetized sys1.length_size
      let st1 := { st with sys := { sys1 with packetized := c.1, length_size := c.2 } }
      if c.1 then primeTail env st1
      else
        match callPushData env st1 env.extra 0 with
        | (true, st2) => primeTail env st2
        | (false, st2) => .err st2
    else .ok { st with sys := sys1 }
  else .ok st

/-- Result of the admission (lateness) checks. -/
inductive AdmitRes where
  | ok (prerolling drawpicture : Bool) (st : St)
  | drop (st : St)
deriving Repr

/-- State carried by an `AdmitRes`. -/
def AdmitRes.st : AdmitRes → St
  | .ok _ _ st => st
  | .drop st => st

/-- Soft/hard lateness gate, lines 170-184: with pacing not enforced and
more than 4 late frames, mark the frame non-displayable; with at least
12 late frames, decrement the counter and abandon the block. -/
def lateGate (env : Env) (pr dp : Bool) (st : St) : AdmitRes :=
  if env.b_pace_control = false ∧ st.sys.late_frames > LATE_FRAMES_DROP_DECODER then
    if st.sys.late_frames < LATE_FRAMES_DROP_HARD then .ok pr false st
    else .drop (setLate st (st.sys.late_frames - 1))
  else .ok pr dp st

/-- Admission control, lines 155-184: preroll handling, the 5-second
late-window drop, and the soft/hard lateness gate. -/
def admitPhase (env : Env) (block : Block) (st : St) : AdmitRes :=
  let pr := block.preroll
  let st1 := if pr then setLate st 0 else st
  let dp := !pr
  if env.b_pace_control = false ∧ st1.sys.late_frames > 0 then
    let m := mdateSt env st1
    if m.1 - m.2.sys.late_frames_start > LATE_FRAMES_DROP_ALWAYS_AGE * CLOCK_FREQ then
      .drop (setLate m.2 (m.2.sys.late_frames - 1))
    else lateGate env pr dp m.2
  else lateGate env pr dp st1

/-- Result of the packetized push loop. -/
inductive PushRes where
  | ok (st : St)
  | framing (st : St)
  | engineFail (st : St)
  | nonterm (st : St)
deriving Repr

/-- State carried by a `PushRes`. -/
def PushRes.st : PushRes → St
  | .ok st => st
  | .framing st => st
  | .engineFail st => st
  | .nonterm st => st

/-- The packetized demux loop, lines 190-212: while at least
`length_size` bytes remain, read a big-endian length header, check it
against the remaining bytes (framing error on overrun), and push that
many bytes as one NAL at the block's PTS.  A zero `length_size` would
make the C loop spin forever; it is reported as `nonterm` (the session
invariantly keeps `length_size` in 1..4). -/
def pushLoop (env : Env) (pts : Int) (ls : Nat) (st : St) (buf : List Nat) : PushRes :=
  if h0 : ls = 0 then .nonterm st
  else if h1 : buf.length < ls then .ok st
  else
    let len := readBE (buf.take ls)
    let rest := buf.drop ls
    if len > rest.length then .framing st
    else
      let pr := callPushNAL env st (rest.take len) pts
      if pr.1 then pushLoop env pts ls pr.2 (rest.drop len)
      else .engineFail pr.2
termination_by buf.length
decreasing_by
  simp only [List.length_drop]
  omega

/-- The data push step, lines 186-226: packetized loop, raw push of the
whole buffer, or — for an empty buffer — the end-of-stream flush. -/
def pushPhase (env : Env) (block : Block) (st : St) : PhaseRes :=
  if block.buffer.length > 0 then
    if st.sys.packetized then
      match pushLoop env block.pts st.sys.length_size st block.buffer with
      | .ok st1 => .ok st1
      | .framing st1 => .err st1
      | .engineFail st1 => .err st1
      | .nonterm st1 => .fuelOut st1
    else
      match callPushData env st block.buffer block.pts with
      | (true, st1) => .ok st1
      | (false, st1) => .err st1
  else
    match callFlush env st with
    | (true, st1) => .ok st1
    | (false, st1) => .err st1

/-- Per-pulled-image lateness update, lines 266-280: if the display
deadline `dd` is positive and has passed (one `mdate` reading),
increment `late_frames`, recording `late_frames_start` (a second
`mdate` reading) exactly when the counter just became 1; otherwise
reset `late_frames` to 0.  A prerolling frame reaches this with
`dd = 0`. -/
def updateLatenessSt (env : Env) (st : St) (dd : Int) : St :=
  if dd > 0 then
    let m := mdateSt env st
    if dd ≤ m.1 then
      let lf := m.2.sys.late_frames + 1
      if lf = 1 then
        let m2 := mdateSt env m.2
        { m2.2 with sys := { m2.2.sys with late_frames := lf, late_frames_start := m2.1 } }
      else { m.2 with sys := { m.2.sys with late_frames := lf } }
    else { m.2 with sys := { m.2.sys with late_frames := 0 } }
  else { st with sys := { st.sys with late_frames := 0 } }

/-- Result of the inner decode-until-image loop. -/
inductive InnerRes where
  | img (i : Image) (st : St)
  | noImg (st : St)
  | fail (st : St)
  | fuelOut (st : St)

/-- State carried by an `InnerRes`. -/
def InnerRes.st : InnerRes → St
  | .img _ st => st
  | .noImg st => st
  | .fail st => st
  | .fuelOut st => st

/-- Inner drain loop, lines 236-256: decode until an image appears or
no more data is available; stalls are not errors, a rejected code
aborts the call (the block is already released). -/
def innerLoop (env : Env) : Nat → St → InnerRes
  | 0, st => .fuelOut st
  | f + 1, st =>
    match callDecode env st with
    | (DecodeErr.otherFail, _, st1) => .fail st1
    | (DecodeErr.ok, can, st1) =>
      match callNextPicture env st1 with
      | (some i, st2) => .img i st2
      | (none, st2) => if can then innerLoop env f st2 else .noImg st2
    | (DecodeErr.otherOK, can, st1) =>
      match callNextPicture env st1 with
      | (some i, st2) => .img i st2
      | (none, st2) => if can then innerLoop env f st2 else .noImg st2
    | (DecodeErr.bufferFull, _, st1) =>
      match callNextPicture env st1 with
      | (some i, st2) => .img i st2
      | (none, st2) => .noImg st2
    | (DecodeErr.waitingForInput, _, st1) =>
      match callNextPicture env st1 with
      | (some i, st2) => .img i st2
      | (none, st2) => .noImg st2

/-- Result of the outer skip-non-displayable loop. -/
inductive OuterRes where
  | img (i : Image) (st : St)
  | noneRes (st : St)
  | chromaErr (st : St)
  | fuelOut (st : St)

/-- State carried by an `OuterRes`. -/
def OuterRes.st : OuterRes → St
  | .img _ st => st
  | .noneRes st => st
  | .chromaErr st => st
  | .fuelOut st => st

/-- Outer drain loop, lines 233-281: pull images, reject non-4:2:0
chroma, update the lateness state per image, and keep skipping images
while the frame is marked non-displayable. -/
def outerLoop (env : Env) (prerolling drawpicture : Bool) : Nat → St → OuterRes
  | 0, st => .fuelOut st
  | f + 1, st =>
    match innerLoop env env.fuel st with
    | .fuelOut st1 => .fuelOut st1
    | .fail st1 => .noneRes st1
    | .noImg st1 => .noneRes st1
    | .img i st1 =>
      if i.chroma = de265_chroma_420 then
        let dd := if prerolling then 0 else env.getDisplayDate i.pts
        let st2 := updateLatenessSt env st1 dd
        if drawpicture then .img i st2
        else outerLoop env prerolling drawpicture f st2
      else .chromaErr st1

/-- One scanline copy of `size` bytes: `memcpy(dst + dstOff, src + srcOff, size)`
over byte-addressed memory. -/
def memcpyAt (dst : Nat → Nat) (dstOff : Nat) (src : Nat → Nat) (srcOff : Nat)
    (size : Nat) : Nat → Nat :=
  fun a => if dstOff ≤ a ∧ a < dstOff + size then src (srcOff + (a - dstOff)) else dst a

/-- Plane copy, lines 300-312: per visible line, copy
`__MIN(src_stride, dst_stride)` bytes, advancing the source pointer by
the source stride and the destination pointer by the destination
stride. -/
def copyPlane (src dst : Nat → Nat) (srcStride dstStride lines : Nat) : Nat → Nat :=
  (List.range lines).foldl
    (fun d line =>
      memcpyAt d (line * dstStride) src (line * srcStride) (min srcStride dstStride))
    dst

/-- Materialization, lines 296-315: fill each plane of the allocated
picture from the decoded image, mark the picture progressive, stamp it
with the image PTS. -/
def materialize (img : Image) (pt : PicT) : PicOut :=
  { planes := fun p =>
      if p < pt.nPlanes then
        copyPlane (img.planeData p) ((pt.plane p).pixels) (img.planeStride p)
          ((pt.plane p).pitch) ((pt.plane p).visibleLines)
      else (pt.plane p).pixels,
    nPlanes := pt.nPlanes,
    progressive := true,
    date := img.pts }

/-- Geometry renegotiation, lines 283-294. -/
def updGeom (fo : FmtOut) (w h : Int) : FmtOut :=
  let fo1 := if w ≠ fo.i_width ∨ h ≠ fo.i_height then
    { fo with i_width := w, i_height := h } else fo
  if w ≠ fo1.i_visible_width ∨ h ≠ fo1.i_visible_height then
    { fo1 with i_visible_width := w, i_visible_height := h } else fo1

/-- Result of the drain-and-materialize tail of Decode. -/
inductive DrainRes where
  | output (p : PicOut) (st : St)
  | noneRes (st : St)
  | fuelOut (st : St)

/-- State carried by a `DrainRes`. -/
def DrainRes.st : DrainRes → St
  | .output _ st => st
  | .noneRes st => st
  | .fuelOut st => st

/-- Drain tail, lines 230-317: run the outer loop; on an image, update
the output geometry, ask the host for a picture, and materialize. -/
def drainPhase (env : Env) (prerolling drawpicture : Bool) (st : St) : DrainRes :=
  match outerLoop env prerolling drawpicture env.fuel st with
  | .fuelOut st1 => .fuelOut st1
  | .noneRes st1 => .noneRes st1
  | .chromaErr st1 => .noneRes st1
  | .img i st1 =>
    let st2 := { st1 with fmtOut := updGeom st1.fmtOut i.width i.height }
    match env.newPic with
    | none => .noneRes st2
    | some pt => .output (materialize i pt) st2

/-- Result of one Decode call: the optional output picture, the final
threaded state, whether the input block was released, and whether a
loop ran out of fuel before the C control flow resolved. -/
structure RunRes where
  pic : Option PicOut
  st : St
  released : Bool
  fuelOut : Bool

/-- The `goto error` epilogue, lines 319-322: release the block, return
no picture. -/
def errorRes (st : St) : RunRes :=
  { pic := none, st := st, released := true, fuelOut := false }

/-- The tail of Decode after the block release (lines 230-317): run the
drain-and-materialize phase and package the outcome. -/
def drainTail (env : Env) (prerolling drawpicture : Bool) (st2 : St) : RunRes :=
  match drainPhase env prerolling drawpicture st2 with
  | .fuelOut st3 => { pic := none, st := st3, released := true, fuelOut := true }
  | .noneRes st3 => { pic := none, st := st3, released := true, fuelOut := false }
  | .output p st3 => { pic := some p, st := st3, released := true, fuelOut := false }

/-- The Decode entry point, lines 88-323, as a function of the
environment, the session state at entry, and the optional input block. -/
def Decode (env : Env) (sys0 : Sys) (blk : Option Block) : RunRes :=
  match blk with
  | none => { pic := none, st := St.init sys0 env.fmtOut0, released := false, fuelOut := false }
  | some block =>
    let st0 := St.init sys0 env.fmtOut0
    if block.discontinuity || block.corrupted then
      let st1 := setLate st0 0
      let st2 := if block.discontinuity then callReset st1 else st1
      errorRes st2
    else
      match extraPhase env st0 with
      | .fuelOut st => { pic := none, st := st, released := false, fuelOut := true }
      | .err st => errorRes st
      | .ok st =>
        match admitPhase env block st with
        | .drop st1 => errorRes st1
        | .ok prerolling drawpicture st1 =>
          match pushPhase env block st1 with
          | .fuelOut st2 => { pic := none, st := st2, released := false, fuelOut := true }
          | .err st2 => errorRes st2
          | .ok st2 => drainTail env prerolling drawpicture st2

/-- Environment of the Open probe, lines 328-374: the input codec, the
success of the two fallible allocations, the CPU count, worker startup
success, the caller-declared packetization flag, and the (uninitialized
malloc) value `late_frames_start` starts with. -/
structure OpenEnv where
  codec : Nat
  mallocOk : Bool
  newDecoderOk : Bool
  cpuCount : Nat
  workersOk : Bool
  b_packetized : Bool
  garbageStart : Int

/-- Result of Open: return code, the allocated session state if any,
and whether a decoding engine instance was created (and kept). -/
structure OpenResult where
  code : Int
  sys : Option Sys
  engineCreated : Bool
deriving Repr

/-- The Open probe, lines 328-374. -/
def Open (e : OpenEnv) : OpenResult :=
  if e.codec ≠ VLC_CODEC_HEVC then
    { code := VLC_EGENERIC, sys := none, engineCreated := false }
  else if e.mallocOk = false then
    { code := VLC_ENOMEM, sys := none, engineCreated := false }
  else if e.newDecoderOk = false then
    { code := VLC_EGENERIC, sys := none, engineCreated := false }
  else
    { code := VLC_SUCCESS,
      sys := some { check_extra := true, length_size := DEFAULT_LENGTH_SIZE,
                    packetized := e.b_packetized, late_frames := 0,
                    late_frames_start := e.garbageStart },
      engineCreated := true }

/-- The NAL pushes of a trace, as (payload, pts) pairs in order. -/
def nalPushes (tr : List EngineCall) : List (List Nat × Int) :=
  tr.filterMap (fun c => match c with
    | EngineCall.pushNAL bs p => some (bs, p)
    | _ => none)

/-! ## Concrete fixtures used by counterexamples and witnesses -/

/-- A 4:2:0 test image. -/
def imgW : Image :=
  { chroma := de265_chroma_420, pts := 1000, width := 64, height := 64,
    planeStride := fun _ => 64, planeData := fun _ _ => 7 }

/-- A 3-plane test picture template. -/
def ptW : PicT :=
  { nPlanes := 3, plane := fun _ => { pitch := 64, visibleLines := 64, pixels := fun _ => 0 } }

/-- Test output geometry. -/
def fmtOutW : FmtOut :=
  { i_width := 64, i_height := 64, i_visible_width := 64, i_visible_height := 64 }

/-- An engine that accepts everything and has one image buffered. -/
def engW : Engine :=
  { pushDataOk := fun _ => true, pushNALok := fun _ => true, flushOk := fun _ => true,
    decodeRes := fun _ => (DecodeErr.ok, false), picture := fun _ => some imgW }

/-- An engine that accepts pushes but is stalled waiting for input with
no buffered image. -/
def engStalled : Engine :=
  { pushDataOk := fun _ => true, pushNALok := fun _ => true, flushOk := fun _ => true,
    decodeRes := fun _ => (DecodeErr.waitingForInput, false), picture := fun _ => none }

/-- Environment for the C2 counterexample: pipeline paces itself, one
image buffered in the engine. -/
def envC2 : Env :=
  { eng := engW, b_pace_control := true, extra := [], getDisplayDate := fun _ => 0,
    clock := fun _ => 0, newPic := some ptW, v7 := false, fuel := 2, fmtOut0 := fmtOutW }

/-- Session state past the extradata check, not late. -/
def sysC2 : Sys :=
  { late_frames_start := 0, length_size := 4, late_frames := 0,
    check_extra := false, packetized := true }

/-- A non-null block with an empty byte buffer and no flags. -/
def blkC2 : Block :=
  { discontinuity := false, corrupted := false, preroll := false, buffer := [], pts := 0 }

/-- Environment for the C1 counterexample: no pacing by the pipeline,
stalled engine, constant clock. -/
def envC1 : Env :=
  { eng := engStalled, b_pace_control := false, extra := [], getDisplayDate := fun _ => 0,
    clock := fun _ => 0, newPic := none, v7 := false, fuel := 1, fmtOut0 := fmtOutW }

/-- Session state in overload: 13 late frames, window just opened. -/
def sysC1 : Sys :=
  { late_frames_start := 0, length_size := 4, late_frames := 13,
    check_extra := false, packetized := false }

/-- An ordinary non-empty data block. -/
def blkC1 : Block :=
  { discontinuity := false, corrupted := false, preroll := false, buffer := [1, 2, 3], pts := 0 }

/-! ## Length-prefix arithmetic -/

/-- `beBytes k n` always has exactly `k` bytes. -/
theorem beBytes_length (k : Nat) : ∀ n, (beBytes k n).length = k := by
  induction k with
  | zero => intro n; rfl
  | succ k ih => intro n; simp [beBytes, ih]

/-- Folding the C length-accumulation step over a big-endian encoding
recovers the encoded value (generalized over the accumulator). -/
theorem readBE_aux (k : Nat) (hk : k ≤ 4) :
    ∀ acc n, acc < 256 ^ (4 - k) → n < 256 ^ k →
      (beBytes k n).foldl (fun len b => ((len <<< 8) % 2 ^ 32) ||| b) acc =
        acc * 256 ^ k + n := by
  induction k with
  | zero =>
    intro acc n _ hn
    interval_cases n
    simp [beBytes]
  | succ k ih =>
    intro acc n hacc hn
    show (beBytes k (n / 256) ++ [n % 256]).foldl _ acc = _
    rw [List.foldl_append]
    have h256 : (0 : Nat) < 256 := by norm_num
    have h1 : n / 256 < 256 ^ k := by
      rw [Nat.div_lt_iff_lt_mul h256]
      calc n < 256 ^ (k + 1) := hn
        _ = 256 ^ k * 256 := by ring
    have hacc2 : acc < 256 ^ (4 - k) :=
      lt_of_lt_of_le hacc (Nat.pow_le_pow_right (by norm_num) (by omega))
    rw [ih (by omega) acc (n / 256) hacc2 h1]
    simp only [List.foldl_cons, List.foldl_nil]
    have hA : acc * 256 ^ k + n / 256 < 256 ^ 3 := by
      have hpow : 0 < 256 ^ k := by positivity
      have hstep : acc * 256 ^ k + n / 256 < (acc + 1) * 256 ^ k := by
        calc acc * 256 ^ k + n / 256 < acc * 256 ^ k + 256 ^ k := by omega
          _ = (acc + 1) * 256 ^ k := by ring
      have hacc3 : acc + 1 ≤ 256 ^ (3 - k) := by
        have heq : 4 - (k + 1) = 3 - k := by omega
        rw [heq] at hacc
        omega
      calc acc * 256 ^ k + n / 256 < (acc + 1) * 256 ^ k := hstep
        _ ≤ 256 ^ (3 - k) * 256 ^ k := by
          exact Nat.mul_le_mul_right _ hacc3
        _ = 256 ^ 3 := by
          rw [← pow_add]
          congr 1
          omega
    have hs : ((acc * 256 ^ k + n / 256) <<< 8) % 2 ^ 32 =
        (acc * 256 ^ k + n / 256) * 256 := by
      rw [Nat.shiftLeft_eq]
      apply Nat.mod_eq_of_lt
      calc (acc * 256 ^ k + n / 256) * 2 ^ 8 < 256 ^ 3 * 2 ^ 8 := by
            exact (Nat.mul_lt_mul_right (by norm_num)).mpr hA
        _ = 2 ^ 32 := by norm_num
    rw [hs]
    have hor := (Nat.mul_add_lt_is_or (show n % 256 < 2 ^ 8 by omega)
      (acc * 256 ^ k + n / 256)).symm
    rw [show (acc * 256 ^ k + n / 256) * 256 = 2 ^ 8 * (acc * 256 ^ k + n / 256) by ring]
    rw [hor]
    have hdm : 256 * (n / 256) + n % 256 = n := Nat.div_add_mod n 256
    calc 2 ^ 8 * (acc * 256 ^ k + n / 256) + n % 256
        = acc * (256 ^ k * 256) + (256 * (n / 256) + n % 256) := by ring
      _ = acc * 256 ^ (k + 1) + n := by rw [hdm, pow_succ]

/-- The big-endian read of lines 192-195 inverts the encoding, for
header widths up to 4 bytes (so the `uint32_t` never wraps). -/
theorem readBE_beBytes (k n : Nat) (hk : k ≤ 4) (hn : n < 256 ^ k) :
    readBE (beBytes k n) = n := by
  have h := readBE_aux k hk 0 n (by positivity) hn
  simpa [readBE] using h

/-! ## Push-loop lemmas -/

/-- State after pushing a list of NALs: the NAL counter advanced and
the pushes appended to the trace. -/
def pushedSt (st : St) (nals : List (List Nat)) (pts : Int) : St :=
  { st with nPushNAL := st.nPushNAL + nals.length,
            trace := st.trace ++ nals.map (fun nal => EngineCall.pushNAL nal pts) }

/-- One iteration of the packetized push loop on a well-formed
length-prefixed NAL at the head of the buffer. -/
theorem pushLoop_cons (env : Env) (pts : Int) (ls : Nat) (st : St)
    (nal rest : List Nat)
    (h1 : 1 ≤ ls) (h4 : ls ≤ 4) (hlen : nal.length < 256 ^ ls)
    (hok : env.eng.pushNALok st.nPushNAL = true) :
    pushLoop env pts ls st (encodeNAL ls nal ++ rest) =
      pushLoop env pts ls (pushedSt st [nal] pts) rest := by
  have hbl : (beBytes ls nal.length).length = ls := beBytes_length ls nal.length
  rw [pushLoop]
  rw [dif_neg (by omega)]
  rw [dif_neg (by simp [encodeNAL, hbl] <;> omega)]
  have hassoc : encodeNAL ls nal ++ rest = beBytes ls nal.length ++ (nal ++ rest) := by
    simp [encodeNAL]
  have ht : (encodeNAL ls nal ++ rest).take ls = beBytes ls nal.length := by
    rw [hassoc]
    exact List.take_left' hbl
  have hd : (encodeNAL ls nal ++ rest).drop ls = nal ++ rest := by
    rw [hassoc]
    exact List.drop_left' hbl
  simp only [ht, hd, readBE_beBytes ls nal.length h4 hlen]
  rw [if_neg (by simp)]
  simp only [callPushNAL, hok, if_true]
  rw [List.take_left, List.drop_left]
  rfl

/-- The push loop consumes an entire well-formed packetized region,
pushing exactly its NALs in order, and continues on the suffix. -/
theorem pushLoop_encode (env : Env) (pts : Int) (ls : Nat)
    (h1 : 1 ≤ ls) (h4 : ls ≤ 4)
    (hok : ∀ n, env.eng.pushNALok n = true) :
    ∀ (nals : List (List Nat)) (st : St) (suffix : List Nat),
      (∀ nal ∈ nals, nal.length < 256 ^ ls) →
      pushLoop env pts ls st (encodeNALs ls nals ++ suffix) =
        pushLoop env pts ls (pushedSt st nals pts) suffix := by
  intro nals
  induction nals with
  | nil =>
    intro st suffix _
    simp [encodeNALs, pushedSt]
  | cons nal rest ih =>
    intro st suffix hn
    have hsplit : encodeNALs ls (nal :: rest) ++ suffix =
        encodeNAL ls nal ++ (encodeNALs ls rest ++ suffix) := by
      simp [encodeNALs]
    rw [hsplit, pushLoop_cons env pts ls st nal _ h1 h4 (hn nal (by simp)) (hok _)]
    rw [ih _ _ (fun x hx => hn x (by simp [hx]))]
    congr 1
    simp only [pushedSt, List.map_cons, List.length_cons, List.length_nil]
    rw [St.mk.injEq]
    refine ⟨rfl, rfl, by omega, rfl, rfl, rfl, rfl, by simp, rfl⟩

/-- The push loop terminates cleanly on an empty buffer. -/
theorem pushLoop_nil (env : Env) (pts : Int) (ls : Nat) (st : St) (h1 : 1 ≤ ls) :
    pushLoop env pts ls st [] = .ok st := by
  rw [pushLoop]
  rw [dif_neg (by omega), dif_pos (by simp; omega)]

/-- The push loop stops with a framing error on a length header that
declares more bytes than remain. -/
theorem pushLoop_framing (env : Env) (pts : Int) (ls : Nat) (st : St)
    (L : Nat) (tail : List Nat)
    (h1 : 1 ≤ ls) (h4 : ls ≤ 4) (hL : L < 256 ^ ls) (hover : L > tail.length) :
    pushLoop env pts ls st (beBytes ls L ++ tail) = .framing st := by
  have hbl : (beBytes ls L).length = ls := beBytes_length ls L
  rw [pushLoop]
  rw [dif_neg (by omega)]
  rw [dif_neg (by simp [hbl] <;> omega)]
  simp only [List.take_left' hbl, List.drop_left' hbl, readBE_beBytes ls L h4 hL]
  rw [if_pos hover]

/-! ## Trace lemmas for the drain loop -/

/-- `nalPushes` distributes over trace concatenation. -/
theorem nalPushes_append (t1 t2 : List EngineCall) :
    nalPushes (t1 ++ t2) = nalPushes t1 ++ nalPushes t2 := by
  simp [nalPushes]

/-- The NAL pushes of a pure push trace. -/
theorem nalPushes_map (nals : List (List Nat)) (pts : Int) :
    nalPushes (nals.map (fun nal => EngineCall.pushNAL nal pts)) =
      nals.map (fun nal => (nal, pts)) := by
  induction nals with
  | nil => rfl
  | cons a t ih => simpa [nalPushes] using congrArg (List.cons (a, pts)) ih

/-- The lateness update never touches the engine trace. -/
theorem updateLateness_trace (env : Env) (st : St) (dd : Int) :
    (updateLatenessSt env st dd).trace = st.trace := by
  rw [updateLatenessSt]
  simp only [mdateSt]
  split_ifs <;> rfl

/-- A decode step adds no NAL push to the trace. -/
theorem callDecode_nal (env : Env) (st : St) :
    nalPushes (callDecode env st).2.2.trace = nalPushes st.trace := by
  simp [callDecode, nalPushes_append, nalPushes]

/-- A picture pull adds no NAL push to the trace. -/
theorem callNextPicture_nal (env : Env) (st : St) :
    nalPushes (callNextPicture env st).2.trace = nalPushes st.trace := by
  simp [callNextPicture, nalPushes_append, nalPushes]

/-- The inner drain loop performs no NAL push. -/
theorem innerLoop_nal (env : Env) : ∀ (f : Nat) (st : St),
    nalPushes (innerLoop env f st).st.trace = nalPushes st.trace := by
  intro f
  induction f with
  | zero => intro st; rfl
  | succ f ih =>
    intro st
    rw [innerLoop]
    rcases hd : callDecode env st with ⟨e, can, st1⟩
    try rw [hd]
    have hst1 : nalPushes st1.trace = nalPushes st.trace := by
      have h0 := callDecode_nal env st
      rw [hd] at h0
      exact h0
    cases e <;> dsimp only
    case otherFail =>
      exact hst1
    case bufferFull =>
      rcases hq : callNextPicture env st1 with ⟨oi, st2⟩
      try rw [hq]
      have hst2 : nalPushes st2.trace = nalPushes st1.trace := by
        have h0 := callNextPicture_nal env st1
        rw [hq] at h0
        exact h0
      cases oi <;> dsimp only [InnerRes.st]
      · rw [hst2, hst1]
      · rw [hst2, hst1]
    case waitingForInput =>
      rcases hq : callNextPicture env st1 with ⟨oi, st2⟩
      try rw [hq]
      have hst2 : nalPushes st2.trace = nalPushes st1.trace := by
        have h0 := callNextPicture_nal env st1
        rw [hq] at h0
        exact h0
      cases oi <;> dsimp only [InnerRes.st]
      · rw [hst2, hst1]
      · rw [hst2, hst1]
    case ok =>
      rcases hq : callNextPicture env st1 with ⟨oi, st2⟩
      try rw [hq]
      have hst2 : nalPushes st2.trace = nalPushes st1.trace := by
        have h0 := callNextPicture_nal env st1
        rw [hq] at h0
        exact h0
      cases oi <;> dsimp only
      · cases can
        · rw [if_neg (by simp)]
          dsimp only [InnerRes.st]
          rw [hst2, hst1]
        · rw [if_pos rfl]
          rw [ih st2, hst2, hst1]
      · dsimp only [InnerRes.st]
        rw [hst2, hst1]
    case otherOK =>
      rcases hq : callNextPicture env st1 with ⟨oi, st2⟩
      try rw [hq]
      have hst2 : nalPushes st2.trace = nalPushes st1.trace := by
        have h0 := callNextPicture_nal env st1
        rw [hq] at h0
        exact h0
      cases oi <;> dsimp only
      · cases can
        · rw [if_neg (by simp)]
          dsimp only [InnerRes.st]
          rw [hst2, hst1]
        · rw [if_pos rfl]
          rw [ih st2, hst2, hst1]
      · dsimp only [InnerRes.st]
        rw [hst2, hst1]

/-- The outer drain loop performs no NAL push. -/
theorem outerLoop_nal (env : Env) (pr dp : Bool) : ∀ (f : Nat) (st : St),
    nalPushes (outerLoop env pr dp f st).st.trace = nalPushes st.trace := by
  intro f
  induction f with
  | zero => intro st; rfl
  | succ f ih =>
    intro st
    rw [outerLoop]
    cases hi : innerLoop env env.fuel st with
    | fuelOut st1 =>
      have := innerLoop_nal env env.fuel st
      rw [hi] at this
      simpa [OuterRes.st] using this
    | fail st1 =>
      have := innerLoop_nal env env.fuel st
      rw [hi] at this
      simpa [OuterRes.st] using this
    | noImg st1 =>
      have := innerLoop_nal env env.fuel st
      rw [hi] at this
      simpa [OuterRes.st] using this
    | img i st1 =>
      have hst1 : nalPushes st1.trace = nalPushes st.trace := by
        have := innerLoop_nal env env.fuel st
        rw [hi] at this
        simpa [InnerRes.st] using this
      dsimp only
      by_cases hch : i.chroma = de265_chroma_420
      · rw [if_pos hch]
        by_cases hdp : dp = true
        · simp only [hdp, if_true, OuterRes.st]
          rw [updateLateness_trace]
          exact hst1
        · simp only [Bool.not_eq_true] at hdp
          subst hdp
          simp only [Bool.false_eq_true, if_false]
          rw [ih]
          rw [updateLateness_trace]
          exact hst1
      · rw [if_neg hch]
        exact hst1

/-- The drain-and-materialize tail performs no NAL push. -/
theorem drainPhase_nal (env : Env) (pr dp : Bool) (st : St) :
    nalPushes (drainPhase env pr dp st).st.trace = nalPushes st.trace := by
  rw [drainPhase]
  cases ho : outerLoop env pr dp env.fuel st with
  | fuelOut st1 =>
    have := outerLoop_nal env pr dp env.fuel st
    rw [ho] at this
    simpa [OuterRes.st, DrainRes.st] using this
  | noneRes st1 =>
    have := outerLoop_nal env pr dp env.fuel st
    rw [ho] at this
    simpa [OuterRes.st, DrainRes.st] using this
  | chromaErr st1 =>
    have := outerLoop_nal env pr dp env.fuel st
    rw [ho] at this
    simpa [OuterRes.st, DrainRes.st] using this
  | img i st1 =>
    have hst1 : nalPushes st1.trace = nalPushes st.trace := by
      have := outerLoop_nal env pr dp env.fuel st
      rw [ho] at this
      simpa [OuterRes.st] using this
    cases env.newPic <;> simpa [DrainRes.st] using hst1

/-- The drain tail performs no NAL push. -/
theorem drainTail_nal (env : Env) (pr dp : Bool) (st2 : St) :
    nalPushes (drainTail env pr dp st2).st.trace = nalPushes st2.trace := by
  have h := drainPhase_nal env pr dp st2
  rw [drainTail]
  cases hdr : drainPhase env pr dp st2 <;> rw [hdr] at h <;>
    simpa [DrainRes.st] using h

/-- The drain tail always reports the block as released. -/
theorem drainTail_released (env : Env) (pr dp : Bool) (st2 : St) :
    (drainTail env pr dp st2).released = true := by
  rw [drainTail]
  cases drainPhase env pr dp st2 <;> rfl

/-- Admission is a no-op on an unflagged block with no late frames. -/
theorem admitPhase_clean (env : Env) (block : Block) (st : St)
    (hp : block.preroll = false) (hl : st.sys.late_frames = 0) :
    admitPhase env block st = .ok false true st := by
  rw [admitPhase]
  simp only [hp, Bool.false_eq_true, if_false, Bool.not_false]
  rw [if_neg (by simp [hl])]
  rw [lateGate]
  rw [if_neg (by simp [hl, LATE_FRAMES_DROP_DECODER])]

/-- The first-call extradata step is skipped once `check_extra` is clear. -/
theorem extraPhase_skip (env : Env) (st : St) (h : st.sys.check_extra = false) :
    extraPhase env st = .ok st := by
  simp [extraPhase, h]

/-- Decode on a clean session (past the extradata check, no late
frames) with an unflagged block reduces to the push phase followed by
the drain tail, with the error epilogue on a push failure. -/
theorem Decode_clean (env : Env) (sys : Sys) (block : Block)
    (hd : block.discontinuity = false) (hc : block.corrupted = false)
    (hp : block.preroll = false) (hce : sys.check_extra = false)
    (hl : sys.late_frames = 0) :
    Decode env sys (some block) =
      match pushPhase env block (St.init sys env.fmtOut0) with
      | .fuelOut st2 => { pic := none, st := st2, released := false, fuelOut := true }
      | .err st2 => errorRes st2
      | .ok st2 => drainTail env false true st2 := by
  rw [Decode]
  rw [show (block.discontinuity || block.corrupted) = false by simp [hd, hc]]
  dsimp only
  rw [extraPhase_skip env _ (by simpa [St.init] using hce)]
  dsimp only
  rw [admitPhase_clean env block _ hp (by simpa [St.init] using hl)]
  dsimp only
  cases pushPhase env block (St.init sys env.fmtOut0) <;> rfl

/-- State after the end-of-stream flush of an empty-buffer block. -/
def flushedSt (st : St) : St :=
  { st with nFlush := st.nFlush + 1, trace := st.trace ++ [EngineCall.flushData] }

/-- State after one decode step and one picture pull. -/
def stepSt (st : St) : St :=
  { st with nDecode := st.nDecode + 1, nPic := st.nPic + 1,
            trace := st.trace ++ [EngineCall.decodeStep] ++ [EngineCall.nextPicture] }

/-- On an empty buffer the push phase flushes the engine (line 221)
and, when the engine accepts, succeeds with only the flush traced. -/
theorem pushPhase_flush (env : Env) (block : Block) (st : St)
    (hbuf : block.buffer = []) (hok : env.eng.flushOk st.nFlush = true) :
    pushPhase env block st = .ok (flushedSt st) := by
  rw [pushPhase, hbuf]
  rw [if_neg (by simp)]
  simp only [callFlush, hok, flushedSt]

/-- When the engine's next decode step succeeds and a 4:2:0 image is
already available, the displayable drain tail returns that image
materialized, having traced exactly one decode step and one pull. -/
theorem drainTail_first_image (env : Env) (st : St) (c : Bool) (img : Image)
    (pt : PicT) (fl : Nat)
    (hdec : env.eng.decodeRes st.nDecode = (DecodeErr.ok, c))
    (hpic : env.eng.picture st.nPic = some img)
    (hchroma : img.chroma = de265_chroma_420)
    (hnp : env.newPic = some pt)
    (hfuel : env.fuel = fl + 1) :
    ∃ st3 : St,
      drainTail env false true st =
        { pic := some (materialize img pt), st := st3,
          released := true, fuelOut := false } ∧
      st3.trace = st.trace ++ [EngineCall.decodeStep] ++ [EngineCall.nextPicture] := by
  have hinner : innerLoop env (fl + 1) st = InnerRes.img img (stepSt st) := by
    rw [innerLoop]
    simp only [callDecode, hdec, callNextPicture, hpic, stepSt]
  have houter : outerLoop env false true env.fuel st =
      OuterRes.img img (updateLatenessSt env (stepSt st) (env.getDisplayDate img.pts)) := by
    rw [hfuel, outerLoop, hfuel, hinner]
    dsimp only
    rw [if_pos hchroma]
    rfl
  rw [drainTail, drainPhase, houter]
  dsimp only
  rw [hnp]
  refine ⟨_, rfl, ?_⟩
  dsimp only
  rw [updateLateness_trace]
  rfl

/-! ## Claim theorems -/

/-- Claim C8 (confirmed): a block flagged discontinuity or corrupted, in
any session state, resets `late_frames` to 0, triggers exactly one
engine reset exactly when the discontinuity flag is set, performs no
other engine interaction (in particular no push), releases the block
and returns no picture (lines 102-108). -/
theorem C8_discontinuity (env : Env) (sys : Sys) (block : Block)
    (hf : block.discontinuity = true ∨ block.corrupted = true) :
    (Decode env sys (some block)).pic = none ∧
    (Decode env sys (some block)).released = true ∧
    (Decode env sys (some block)).st.sys.late_frames = 0 ∧
    (Decode env sys (some block)).st.sys.late_frames_start = sys.late_frames_start ∧
    (Decode env sys (some block)).st.sys.length_size = sys.length_size ∧
    (Decode env sys (some block)).st.sys.check_extra = sys.check_extra ∧
    (Decode env sys (some block)).st.sys.packetized = sys.packetized ∧
    (Decode env sys (some block)).st.trace =
      (if block.discontinuity then [EngineCall.reset] else []) := by
  have hb : (block.discontinuity || block.corrupted) = true := by
    rcases hf with h | h <;> simp [h]
  cases hdisc : block.discontinuity <;>
    simp_all [Decode, errorRes, callReset, setLate, St.init]

/-- Witness for C8 at a concrete corrupted block. -/
theorem C8_discontinuity_witness :
    (Decode envC2 sysC1 (some { blkC1 with corrupted := true })).pic = none ∧
    (Decode envC2 sysC1 (some { blkC1 with corrupted := true })).st.sys.late_frames = 0 ∧
    (Decode envC2 sysC1 (some { blkC1 with corrupted := true })).st.trace = [] := by
  have h := C8_discontinuity envC2 sysC1 { blkC1 with corrupted := true } (Or.inr rfl)
  exact ⟨h.1, h.2.2.1, by simpa using h.2.2.2.2.2.2.2⟩

/-- Claim C10 (confirmed): Open fails with the generic error for every
non-HEVC input format, allocating no session state and creating no
engine; a successful probe requires the HEVC codec and a successfully
created engine (lines 328-374). -/
theorem C10_open (e : OpenEnv) :
    (e.codec ≠ VLC_CODEC_HEVC →
      Open e = { code := VLC_EGENERIC, sys := none, engineCreated := false }) ∧
    ((Open e).code = VLC_SUCCESS →
      e.codec = VLC_CODEC_HEVC ∧ e.mallocOk = true ∧ e.newDecoderOk = true ∧
      (Open e).sys.isSome = true ∧ (Open e).engineCreated = true) := by
  constructor
  · intro h
    simp [Open, h]
  · intro h
    by_cases h1 : e.codec = VLC_CODEC_HEVC
    · by_cases h2 : e.mallocOk
      · by_cases h3 : e.newDecoderOk
        · simp_all [Open]
        · simp only [Bool.not_eq_true] at h3
          simp [Open, h1, h2, h3, VLC_SUCCESS, VLC_EGENERIC] at h
      · simp only [Bool.not_eq_true] at h2
        simp [Open, h1, h2, VLC_SUCCESS, VLC_ENOMEM] at h
    · simp [Open, h1, VLC_SUCCESS, VLC_EGENERIC] at h

/-- Witness for C10: a non-HEVC probe and a successful HEVC probe. -/
theorem C10_open_witness :
    Open { codec := 0, mallocOk := true, newDecoderOk := true, cpuCount := 4,
           workersOk := true, b_packetized := true, garbageStart := 0 } =
      { code := VLC_EGENERIC, sys := none, engineCreated := false } ∧
    (Open { codec := VLC_CODEC_HEVC, mallocOk := true, newDecoderOk := true, cpuCount := 4,
            workersOk := true, b_packetized := true, garbageStart := 0 }).engineCreated = true := by
  constructor
  · exact (C10_open _).1 (by decide)
  · exact ((C10_open _).2 (by decide)).2.2.2.2

/-- Claim C5 (confirmed): the lateness state machine per pulled image
(lines 266-280).  If the computed display deadline is positive and not
after the current `mdate` reading, `late_frames` is incremented by
exactly one and `late_frames_start` is assigned the (next) clock
reading exactly at the transition from 0 to 1, being left unchanged at
every other increment; an image whose deadline is in the future resets
`late_frames` to 0.  A prerolling image reaches this update with a
deadline of 0, excluded by the positivity condition (see `outerLoop`). -/
theorem C5_lateness (env : Env) (st : St) (dd : Int) :
    (dd > 0 → dd ≤ env.clock st.tick →
      ((updateLatenessSt env st dd).sys.late_frames = st.sys.late_frames + 1 ∧
       (st.sys.late_frames = 0 →
         (updateLatenessSt env st dd).sys.late_frames_start = env.clock (st.tick + 1)) ∧
       (st.sys.late_frames ≠ 0 →
         (updateLatenessSt env st dd).sys.late_frames_start = st.sys.late_frames_start))) ∧
    (dd > env.clock st.tick →
      (updateLatenessSt env st dd).sys.late_frames = 0) := by
  constructor
  · intro h1 h2
    rw [updateLatenessSt]
    rw [if_pos h1]
    simp only [mdateSt]
    rw [if_pos h2]
    by_cases h0 : st.sys.late_frames + 1 = 1
    · rw [if_pos h0]
      refine ⟨rfl, fun _ => rfl, fun hne => absurd (by omega : st.sys.late_frames = 0) hne⟩
    · rw [if_neg h0]
      exact ⟨rfl, fun hz => absurd (by omega : st.sys.late_frames + 1 = 1) h0, fun _ => rfl⟩
  · intro h3
    rw [updateLatenessSt]
    by_cases h1 : dd > 0
    · rw [if_pos h1]
      simp only [mdateSt]
      rw [if_neg (by omega)]
    · rw [if_neg h1]

/-- Environment whose clock reads 10 then 20. -/
def envC5W : Env :=
  { envC2 with clock := fun t => 10 * (t + 1) }

/-- Witness for C5: a late image (deadline 5, now 10) increments 0 to 1
and records the window start from the second clock reading (20); an
on-time image (deadline 99 > 10) resets the counter. -/
theorem C5_lateness_witness :
    (updateLatenessSt envC5W (St.init sysC2 fmtOutW) 5).sys.late_frames = 1 ∧
    (updateLatenessSt envC5W (St.init sysC2 fmtOutW) 5).sys.late_frames_start = 20 ∧
    (updateLatenessSt envC5W (St.init sysC2 fmtOutW) 99).sys.late_frames = 0 := by
  have h1 := (C5_lateness envC5W (St.init sysC2 fmtOutW) 5).1 (by decide) (by decide)
  have h2 := (C5_lateness envC5W (St.init sysC2 fmtOutW) 99).2 (by decide)
  exact ⟨h1.1, by simpa using h1.2.1 rfl, h2⟩

/-- Claim C6 counterexample: the first conjunct of C6 predicts that for
extradata of length at most 3 the `packetized` flag keeps its
caller-declared default.  For the 1-byte extradata `[1]` with
caller-declared default `packetized = true`, the code takes the
raw/Annex-B branch (lines 115, 121-122) and sets `packetized := false`,
so the flag does not keep its default. -/
theorem C6_counterexample : classifyExtra [1] true 4 ≠ (true, 4) := by
  decide

/-- Claim C6 (amended): extradata of length 0 leaves both the
packetized flag and `length_size` at their caller-declared defaults;
extradata of length 1..3 keeps the `length_size` default but forces the
raw/Annex-B classification (`packetized := false`) rather than keeping
the caller default; a buffer whose first three bytes are all-zero, or
0x00 0x00 with third byte at most 1, is classified raw regardless of
later bytes; and whenever a buffer longer than 21 bytes is classified
packetized, `length_size` equals `(extradata[21] & 3) + 1`, which lies
in 1..4 (lines 110-123). -/
theorem C6_classification (extra : List Nat) (pk : Bool) (ls : Nat) :
    (extra.length = 0 → classifyExtra extra pk ls = (pk, ls)) ∧
    (1 ≤ extra.length → extra.length ≤ 3 → classifyExtra extra pk ls = (false, ls)) ∧
    (3 ≤ extra.length → extra.getD 0 0 = 0 → extra.getD 1 0 = 0 → extra.getD 2 0 ≤ 1 →
      (classifyExtra extra pk ls).1 = false) ∧
    (21 < extra.length → (classifyExtra extra pk ls).1 = true →
      (classifyExtra extra pk ls).2 = (extra.getD 21 0 &&& 3) + 1 ∧
      1 ≤ (classifyExtra extra pk ls).2 ∧ (classifyExtra extra pk ls).2 ≤ 4) := by
  refine ⟨fun h0 => ?_, fun ha hb => ?_, fun h3 e0 e1 e2 => ?_, fun h21 hpk => ?_⟩
  · simp [classifyExtra, h0]
  · rw [classifyExtra, if_pos (by omega), if_neg (by omega)]
  · have hneg : ¬ (extra.length > 3 ∧
        (extra.getD 0 0 ≠ 0 ∨ extra.getD 1 0 ≠ 0 ∨ extra.getD 2 0 > 1)) := by
      rintro ⟨-, h | h | h⟩
      · exact h e0
      · exact h e1
      · omega
    rw [classifyExtra, if_pos (by omega), if_neg hneg]
  · rw [classifyExtra, if_pos (by omega)] at hpk ⊢
    by_cases hc : extra.length > 3 ∧
        (extra.getD 0 0 ≠ 0 ∨ extra.getD 1 0 ≠ 0 ∨ extra.getD 2 0 > 1)
    · rw [if_pos hc, if_pos h21]
      have hand : extra.getD 21 0 &&& 3 ≤ 3 := Nat.and_le_right
      exact ⟨rfl, by omega, by omega⟩
    · rw [if_neg hc] at hpk
      exact absurd hpk (by simp)

/-- Witness for C6 (amended), covering all four conjuncts: empty
extradata, a 2-byte buffer, a start-code-like buffer, and a 22-byte
packetized buffer whose byte 21 is 6 (giving `length_size = 3`). -/
theorem C6_classification_witness :
    classifyExtra [] true 4 = (true, 4) ∧
    classifyExtra [1, 1] true 4 = (false, 4) ∧
    (classifyExtra [0, 0, 1, 9, 9, 9] true 4).1 = false ∧
    (classifyExtra [1, 0, 0, 0, 0, 0, 0, 0, 0, 0, 0, 0, 0, 0, 0, 0, 0, 0, 0, 0, 0, 6]
      false 4).2 = 3 := by
  refine ⟨(C6_classification [] true 4).1 rfl,
          (C6_classification [1, 1] true 4).2.1 (by decide) (by decide),
          (C6_classification [0, 0, 1, 9, 9, 9] true 4).2.2.1 (by decide) rfl rfl
            (by decide), ?_⟩
  have h := ((C6_classification
      [1, 0, 0, 0, 0, 0, 0, 0, 0, 0, 0, 0, 0, 0, 0, 0, 0, 0, 0, 0, 0, 6] false 4).2.2.2
      (by decide) (by decide)).1
  simpa using h

/-- Unfolding of `copyPlane` by one (final) line. -/
theorem copyPlane_succ (src dst : Nat → Nat) (ss ds n : Nat) :
    copyPlane src dst ss ds (n + 1) =
      memcpyAt (copyPlane src dst ss ds n) (n * ds) src (n * ss) (min ss ds) := by
  unfold copyPlane
  rw [List.range_succ, List.foldl_append]
  rfl

/-- Claim C7 (confirmed): the per-plane copy of the materializer (lines
300-312, applied per plane in `materialize`) writes, for each of the
`lines` visible scanlines, exactly the first `min srcStride dstStride`
bytes at destination offset `line * dstStride`, taking them from source
offset `line * srcStride`; every other destination byte is left
untouched - so exactly `min srcStride dstStride * lines` bytes are
copied in total and never more, for arbitrary stride pairs. -/
theorem C7_materializer (src dst : Nat → Nat) (ss ds lines : Nat) :
    (∀ line, line < lines → ∀ i, i < min ss ds →
      copyPlane src dst ss ds lines (line * ds + i) = src (line * ss + i)) ∧
    (∀ a, (∀ line, line < lines → ¬ (line * ds ≤ a ∧ a < line * ds + min ss ds)) →
      copyPlane src dst ss ds lines a = dst a) := by
  induction lines with
  | zero =>
    exact ⟨fun l hl => absurd hl (by omega), fun a _ => rfl⟩
  | succ n ih =>
    rw [copyPlane_succ]
    constructor
    · intro line hl i hi
      by_cases hline : line = n
      · subst hline
        simp only [memcpyAt]
        rw [if_pos (by omega)]
        congr 1
        omega
      · have hl2 : line < n := by omega
        have hmul : line * ds + ds ≤ n * ds := by
          have h := Nat.mul_le_mul_right ds (show line + 1 ≤ n by omega)
          simpa [Nat.succ_mul] using h
        have hds : i < ds := lt_of_lt_of_le hi (min_le_right ss ds)
        simp only [memcpyAt]
        rw [if_neg (by omega)]
        exact ih.1 line hl2 i hi
    · intro a ha
      simp only [memcpyAt]
      rw [if_neg (ha n (by omega))]
      exact ih.2 a (fun l hl => ha l (by omega))

/-- Claim C2 counterexample: the claim predicts that a decode call on a
non-null block with an empty byte buffer performs no call into the
engine and returns no output.  On the concrete session `sysC2` (past
the extradata check, not late) with the empty unflagged block `blkC2`,
the code reaches the `i_buffer == 0` branch (line 221), calls
`de265_flush_data` and then drives the drain loop, which here pulls a
buffered image and returns a picture - so the engine is touched and
output is produced. -/
theorem C2_counterexample :
    blkC2.buffer = [] ∧
    EngineCall.flushData ∈ (Decode envC2 sysC2 (some blkC2)).st.trace ∧
    (Decode envC2 sysC2 (some blkC2)).pic.isSome = true := by
  refine ⟨rfl, by decide, by decide⟩

/-- Claim C2 (amended): only a null input block is a pure no-op - the
call returns no picture, leaves the whole state (lateness state
included) unchanged, performs no engine call, and does not release
anything (lines 98-100).  A non-null block with an empty buffer
instead flushes the engine (see C9). -/
theorem C2_null_noop (env : Env) (sys : Sys) :
    Decode env sys none =
      { pic := none, st := St.init sys env.fmtOut0, released := false, fuelOut := false } := rfl

/-- Claim C1 counterexample: the claim predicts that once `late_frames`
exceeds 12, every subsequent non-null block is abandoned with no engine
push until an on-time pulled image resets the counter to 0.  Starting
from `late_frames = 13` (no pacing, window just opened, constant
clock), the first two calls are indeed abandoned with an empty engine
trace - but each hard drop decrements the counter (line 180), so the
third call enters with `late_frames = 11 < 12` and pushes the block's
data into the engine, although no image was ever pulled and the counter
never returned to 0. -/
theorem C1_counterexample :
    sysC1.late_frames > LATE_FRAMES_DROP_HARD ∧
    (Decode envC1 sysC1 (some blkC1)).st.trace = [] ∧
    (Decode envC1 sysC1 (some blkC1)).pic.isSome = false ∧
    (Decode envC1 sysC1 (some blkC1)).st.sys.late_frames = 12 ∧
    (Decode envC1 (Decode envC1 sysC1 (some blkC1)).st.sys (some blkC1)).st.trace = [] ∧
    (Decode envC1 (Decode envC1 sysC1 (some blkC1)).st.sys
      (some blkC1)).st.sys.late_frames = 11 ∧
    EngineCall.pushData blkC1.buffer blkC1.pts ∈
      (Decode envC1 (Decode envC1 (Decode envC1 sysC1 (some blkC1)).st.sys
        (some blkC1)).st.sys (some blkC1)).st.trace := by
  decide

/-- Claim C1 (amended): in a non-pace-controlled session past the
extradata check, whenever `late_frames` is at least 12, a decode call
on an unflagged block is abandoned with no engine interaction at all
(no push, trace empty), the block is released, no picture is returned,
and `late_frames` is decremented by exactly one (lines 162-184; both
the 5-second-window drop and the hard drop decrement).  Abandonment
therefore persists only while `late_frames` stays at or above 12: after
at most two such drops the counter reaches 11 and the next block is
decoded again (marked non-displayable), with no on-time image needed. -/
theorem C1_hard_drop (env : Env) (sys : Sys) (block : Block)
    (hpace : env.b_pace_control = false)
    (hd : block.discontinuity = false) (hc : block.corrupted = false)
    (hp : block.preroll = false)
    (hce : sys.check_extra = false)
    (hl : sys.late_frames ≥ LATE_FRAMES_DROP_HARD) :
    (Decode env sys (some block)).pic = none ∧
    (Decode env sys (some block)).released = true ∧
    (Decode env sys (some block)).st.trace = [] ∧
    (Decode env sys (some block)).st.sys.late_frames = sys.late_frames - 1 ∧
    (Decode env sys (some block)).st.sys.packetized = sys.packetized ∧
    (Decode env sys (some block)).st.sys.length_size = sys.length_size ∧
    (Decode env sys (some block)).st.sys.check_extra = false := by
  simp only [LATE_FRAMES_DROP_HARD] at hl
  have hflags : (block.discontinuity || block.corrupted) = false := by
    simp [hd, hc]
  have hskip : extraPhase env (St.init sys env.fmtOut0) = .ok (St.init sys env.fmtOut0) := by
    simp [extraPhase, St.init, hce]
  rw [Decode, hflags]
  simp only [Bool.false_eq_true, if_false, hskip]
  rw [admitPhase]
  simp only [hp, Bool.false_eq_true, if_false, Bool.not_false]
  rw [if_pos ⟨hpace, by simp [St.init]; omega⟩]
  simp only [mdateSt, St.init]
  by_cases hage : env.clock 0 - sys.late_frames_start >
      LATE_FRAMES_DROP_ALWAYS_AGE * CLOCK_FREQ
  · rw [if_pos (by simpa using hage)]
    simp [errorRes, setLate, hce]
  · rw [if_neg (by simpa using hage)]
    rw [lateGate]
    rw [if_pos ⟨hpace, by simp [LATE_FRAMES_DROP_DECODER]; omega⟩]
    rw [if_neg (by simp [LATE_FRAMES_DROP_HARD]; omega)]
    simp [errorRes, setLate, hce]

/-- Witness for C1 (amended) at `late_frames = 12` exactly. -/
theorem C1_hard_drop_witness :
    (Decode envC1 { sysC1 with late_frames := 12 } (some blkC1)).st.trace = [] ∧
    (Decode envC1 { sysC1 with late_frames := 12 } (some blkC1)).st.sys.late_frames = 11 := by
  have h := C1_hard_drop envC1 { sysC1 with late_frames := 12 } blkC1 rfl rfl rfl rfl rfl
    (by decide)
  exact ⟨h.2.2.1, by rw [h.2.2.2.1]; decide⟩

/-- Claim C3 (confirmed): on a packetized session (past the extradata
check, no lateness drop pending) whose engine accepts every NAL, a
block whose buffer is the concatenation of N length-prefixed NAL units
(valid `length_size`-byte big-endian prefixes, `length_size` in 1..4)
produces exactly N `de265_push_NAL` calls, the i-th carrying exactly
the i-th NAL payload in order, each at the block's PTS - for any N
including 0 (lines 189-212; for N = 0 the buffer is empty and the flush
path runs, still with zero NAL pushes). -/
theorem C3_roundtrip (env : Env) (sys : Sys) (block : Block) (nals : List (List Nat))
    (h1 : 1 ≤ sys.length_size) (h4 : sys.length_size ≤ 4)
    (hn : ∀ nal ∈ nals, nal.length < 256 ^ sys.length_size)
    (hbuf : block.buffer = encodeNALs sys.length_size nals)
    (hpk : sys.packetized = true) (hce : sys.check_extra = false)
    (hl : sys.late_frames = 0)
    (hd : block.discontinuity = false) (hc : block.corrupted = false)
    (hp : block.preroll = false)
    (hok : ∀ n, env.eng.pushNALok n = true) :
    nalPushes (Decode env sys (some block)).st.trace =
      nals.map (fun nal => (nal, block.pts)) := by
  rw [Decode_clean env sys block hd hc hp hce hl]
  cases nals with
  | nil =>
    have hbuf0 : block.buffer = [] := by simpa [encodeNALs] using hbuf
    rw [pushPhase, hbuf0]
    rw [if_neg (by simp)]
    rcases hfl : callFlush env (St.init sys env.fmtOut0) with ⟨okf, st1⟩
    try rw [hfl]
    have htr : nalPushes st1.trace = [] := by
      have h0 := congrArg (fun p => nalPushes p.2.trace) hfl
      simpa [callFlush, St.init, nalPushes] using h0.symm
    cases okf <;> dsimp only
    · simp [errorRes, htr]
    · rw [drainTail_nal]
      simpa using htr
  | cons nal rest =>
    have hb := beBytes_length sys.length_size nal.length
    have hpos : block.buffer.length > 0 := by
      rw [hbuf]
      simp only [encodeNALs, List.foldr_cons, encodeNAL, List.length_append]
      omega
    rw [pushPhase]
    rw [if_pos hpos]
    rw [if_pos (show (St.init sys env.fmtOut0).sys.packetized = true by
      simpa [St.init] using hpk)]
    have hpl : pushLoop env block.pts (St.init sys env.fmtOut0).sys.length_size
        (St.init sys env.fmtOut0) block.buffer =
        PushRes.ok (pushedSt (St.init sys env.fmtOut0) (nal :: rest) block.pts) := by
      show pushLoop env block.pts sys.length_size (St.init sys env.fmtOut0)
        block.buffer = _
      have he := pushLoop_encode env block.pts sys.length_size h1 h4 hok (nal :: rest)
        (St.init sys env.fmtOut0) [] hn
      rw [List.append_nil] at he
      rw [hbuf, he, pushLoop_nil env block.pts sys.length_size _ h1]
    rw [hpl]
    dsimp only
    rw [drainTail_nal]
    have htr : (pushedSt (St.init sys env.fmtOut0) (nal :: rest) block.pts).trace
        = (nal :: rest).map (fun x => EngineCall.pushNAL x block.pts) := by
      simp [pushedSt, St.init]
    rw [htr, nalPushes_map]

/-- A packetized block with two NALs (payloads [9,8] and [7]) under a
4-byte length header. -/
def blkC3W : Block :=
  { discontinuity := false, corrupted := false, preroll := false,
    buffer := encodeNALs 4 [[9, 8], [7]], pts := 5 }

/-- Witness for C3: the two NALs come back as exactly two pushes in
order at the block PTS. -/
theorem C3_roundtrip_witness :
    nalPushes (Decode envC2 sysC2 (some blkC3W)).st.trace = [([9, 8], 5), ([7], 5)] := by
  have h := C3_roundtrip envC2 sysC2 blkC3W [[9, 8], [7]] (by decide) (by decide)
    (by decide) rfl rfl rfl rfl rfl rfl rfl (fun n => rfl)
  simpa [blkC3W] using h

/-- Claim C4 (confirmed): a packetized block containing, after some
well-formed NALs, a length prefix that declares more bytes than remain
is abandoned at that prefix with a framing error (lines 199-202): the
well-formed NALs before it are pushed, nothing after it is pushed, the
block is still released (lines 319-322), no picture is returned, no
engine reset happens, and the session state (lateness and demuxer
configuration) is fully preserved for the next block. -/
theorem C4_framing_violation (env : Env) (sys : Sys) (block : Block)
    (good : List (List Nat)) (L : Nat) (tail : List Nat)
    (h1 : 1 ≤ sys.length_size) (h4 : sys.length_size ≤ 4)
    (hn : ∀ nal ∈ good, nal.length < 256 ^ sys.length_size)
    (hL : L < 256 ^ sys.length_size) (hover : L > tail.length)
    (hbuf : block.buffer =
      encodeNALs sys.length_size good ++ beBytes sys.length_size L ++ tail)
    (hpk : sys.packetized = true) (hce : sys.check_extra = false)
    (hl : sys.late_frames = 0)
    (hd : block.discontinuity = false) (hc : block.corrupted = false)
    (hp : block.preroll = false)
    (hok : ∀ n, env.eng.pushNALok n = true) :
    (Decode env sys (some block)).pic = none ∧
    (Decode env sys (some block)).released = true ∧
    (Decode env sys (some block)).st.sys = sys ∧
    nalPushes (Decode env sys (some block)).st.trace =
      good.map (fun nal => (nal, block.pts)) ∧
    EngineCall.reset ∉ (Decode env sys (some block)).st.trace := by
  have hb := beBytes_length sys.length_size L
  have hpos : block.buffer.length > 0 := by
    rw [hbuf]
    simp only [List.length_append]
    omega
  rw [List.append_assoc] at hbuf
  have hpl : pushLoop env block.pts (St.init sys env.fmtOut0).sys.length_size
      (St.init sys env.fmtOut0) block.buffer =
      PushRes.framing (pushedSt (St.init sys env.fmtOut0) good block.pts) := by
    show pushLoop env block.pts sys.length_size (St.init sys env.fmtOut0)
      block.buffer = _
    rw [hbuf]
    rw [pushLoop_encode env block.pts sys.length_size h1 h4 hok good
      (St.init sys env.fmtOut0) (beBytes sys.length_size L ++ tail) hn]
    exact pushLoop_framing env block.pts sys.length_size _ L tail h1 h4 hL hover
  have hDec : Decode env sys (some block) =
      errorRes (pushedSt (St.init sys env.fmtOut0) good block.pts) := by
    rw [Decode_clean env sys block hd hc hp hce hl]
    rw [pushPhase, if_pos hpos,
      if_pos (show (St.init sys env.fmtOut0).sys.packetized = true by
        simpa [St.init] using hpk)]
    rw [hpl]
  rw [hDec]
  have htr : (pushedSt (St.init sys env.fmtOut0) good block.pts).trace
      = good.map (fun x => EngineCall.pushNAL x block.pts) := by
    simp [pushedSt, St.init]
  refine ⟨rfl, rfl, ?_, ?_, ?_⟩
  · simp [errorRes, pushedSt, St.init]
  · simp only [errorRes]
    rw [htr, nalPushes_map]
  · simp only [errorRes]
    rw [htr]
    simp

/-- A packetized block with one good NAL (payload [9]) followed by a
prefix declaring 5 bytes with only 2 remaining. -/
def blkC4W : Block :=
  { discontinuity := false, corrupted := false, preroll := false,
    buffer := encodeNALs 4 [[9]] ++ beBytes 4 5 ++ [1, 2], pts := 7 }

/-- Witness for C4: exactly the one good NAL is pushed, no picture, and
the session state survives untouched. -/
theorem C4_framing_violation_witness :
    (Decode envC2 sysC2 (some blkC4W)).pic = none ∧
    (Decode envC2 sysC2 (some blkC4W)).st.sys = sysC2 ∧
    nalPushes (Decode envC2 sysC2 (some blkC4W)).st.trace = [([9], 7)] := by
  have h := C4_framing_violation envC2 sysC2 blkC4W [[9]] 5 [1, 2] (by decide) (by decide)
    (by decide) (by decide) (by decide) rfl rfl rfl rfl rfl rfl rfl (fun n => rfl)
  exact ⟨h.1, h.2.2.1, by simpa [blkC4W] using h.2.2.2.1⟩

/-- Claim C9 (confirmed): a non-null block with an empty byte buffer
that passes the flag and lateness checks issues an end-of-stream flush
to the engine instead of a push (line 221), then runs the normal drain
loop (lines 230-259): with a 4:2:0 image buffered in the engine the
call still returns a materialized output picture, the block is
released, and the engine trace is exactly flush, one decode step, one
pull - no `de265_push_data` or `de265_push_NAL` at all. -/
theorem C9_empty_flush (env : Env) (sys : Sys) (block : Block) (c : Bool)
    (img : Image) (pt : PicT) (fl : Nat)
    (hce : sys.check_extra = false) (hl : sys.late_frames = 0)
    (hd : block.discontinuity = false) (hc : block.corrupted = false)
    (hp : block.preroll = false) (hbuf : block.buffer = [])
    (hflush : env.eng.flushOk 0 = true)
    (hdec : env.eng.decodeRes 0 = (DecodeErr.ok, c))
    (hpic : env.eng.picture 0 = some img)
    (hchroma : img.chroma = de265_chroma_420)
    (hnp : env.newPic = some pt)
    (hfuel : env.fuel = fl + 1) :
    (Decode env sys (some block)).pic = some (materialize img pt) ∧
    (Decode env sys (some block)).released = true ∧
    (Decode env sys (some block)).st.trace =
      [EngineCall.flushData, EngineCall.decodeStep, EngineCall.nextPicture] := by
  rw [Decode_clean env sys block hd hc hp hce hl]
  rw [pushPhase_flush env block _ hbuf (by simpa [St.init] using hflush)]
  dsimp only
  obtain ⟨st3, hEq, hTr⟩ := drainTail_first_image env
    (flushedSt (St.init sys env.fmtOut0)) c img pt fl
    (by simpa [flushedSt, St.init] using hdec)
    (by simpa [flushedSt, St.init] using hpic) hchroma hnp hfuel
  rw [hEq]
  refine ⟨rfl, rfl, ?_⟩
  rw [hTr]
  simp [flushedSt, St.init]

/-- Witness for C9: the concrete empty block `blkC2` on the buffered
engine `engW` yields a picture and the exact three-call trace. -/
theorem C9_empty_flush_witness :
    (Decode envC2 sysC2 (some blkC2)).pic = some (materialize imgW ptW) ∧
    (Decode envC2 sysC2 (some blkC2)).st.trace =
      [EngineCall.flushData, EngineCall.decodeStep, EngineCall.nextPicture] := by
  have h := C9_empty_flush envC2 sysC2 blkC2 false imgW ptW 1
    rfl rfl rfl rfl rfl rfl rfl rfl rfl rfl rfl rfl
  exact ⟨h.1, h.2.2⟩

/-- Witness for C7 at srcStride 3 > dstStride 2, 2 lines: byte (1,1) of
the destination holds source byte at offset 4, and destination offset 4
(outside both line windows) is untouched. -/
theorem C7_materializer_witness :
    copyPlane (fun a => a) (fun _ => 99) 3 2 2 3 = 4 ∧
    copyPlane (fun a => a) (fun _ => 99) 3 2 2 4 = 99 := by
  constructor
  · have h := (C7_materializer (fun a => a) (fun _ => 99) 3 2 2).1 1 (by decide) 1 (by decide)
    simpa using h
  · exact (C7_materializer (fun a => a) (fun _ => 99) 3 2 2).2 4
      (by intro l hl; omega)

end Libde265
